import Mathlib

/-!
Shallow embedding of `src/bjorklund.py`, a generalization of the Bjorklund
algorithm for Euclidean rhythms with a continuous evenness parameter and
cyclic rotation.

Modelling conventions:
* The heterogeneous nested lists of Python (whose elements are either literal
  bits or nested lists) are modelled by the inductive type `BUnit`
  (`leaf` for a literal bit, `group` for a nested list).
* Python `int` is modelled by `ℤ`, Python `float` by `ℚ` (exact
  arithmetic standing in for IEEE doubles).
* The dynamically typed arguments are modelled by the tagged type
  `PyVal`, so that the `isinstance` assertions can be expressed.
* The `assert` statements of the function are modelled by `bjorklundChecked`
  returning `Option`: `none` models an `AssertionError` raised before any
  computation, `some` a normal return.
-/

namespace Bjorklund

/-- A unit held by the working lists of the algorithm: either a literal
binary value or a nested list of units. -/
inductive BUnit where
  | leaf : ℕ → BUnit
  | group : List BUnit → BUnit

theorem sizeOf_append (l1 l2 : List BUnit) :
    sizeOf (l1 ++ l2) + 1 = sizeOf l1 + sizeOf l2 := by
  induction l1 with
  | nil => simp; omega
  | cons a l ih => simp at ih ⊢; omega

instance (l : List BUnit) : Decidable (l = []) :=
  match l with
  | [] => isTrue rfl
  | _ :: _ => isFalse (by simp)

/-- Embedding of the inner `flatten` generator of `bjorklund`: completely
flattens an arbitrarily deeply nested list, depth-first, left to right.
The clause for `group` mirrors `nested_list = sublist + nested_list`. -/
def flatten : List BUnit → List ℕ
  | [] => []
  | BUnit.leaf b :: rest => b :: flatten rest
  | BUnit.group g :: rest => flatten (g ++ rest)
termination_by l => sizeOf l
decreasing_by
  all_goals simp_wf
  all_goals first
    | omega
    | (have h := sizeOf_append g rest; omega)

/-- Embedding of the `while True` pairing loop of `bjorklund`.
`paired_elements` pairs each element of `smaller` with the element of
`larger` at the same index (larger element first, as in
`[larger[i], smaller[i]]`); `unpaired_elements` is the unconsumed tail of
`larger`.  The loop exits (flattening the surviving list) when either of
the two is empty, and otherwise continues with the longer of the two as
the new `larger` (on a tie, `paired_elements` becomes the larger). -/
def pairLoop (larger smaller : List BUnit) : List ℕ :=
  let paired_elements := (larger.zip smaller).map fun p => BUnit.group [p.1, p.2]
  let unpaired_elements := larger.drop smaller.length
  if unpaired_elements = [] then flatten paired_elements
  else if paired_elements = [] then flatten unpaired_elements
  else if unpaired_elements.length > paired_elements.length then
    pairLoop unpaired_elements paired_elements
  else
    pairLoop paired_elements unpaired_elements
termination_by larger.length + smaller.length
decreasing_by
  all_goals
    simp_wf
    have h1 := List.length_pos.mpr (by assumption : ¬unpaired_elements = [])
    have h2 := List.length_pos.mpr (by assumption : ¬paired_elements = [])
    have e1 : unpaired_elements.length = larger.length - smaller.length := by
      simp [unpaired_elements]
    have e2 : paired_elements.length = min larger.length smaller.length := by
      simp [paired_elements]
    omega

/-- The Python `int()` conversion applied to a real value: truncation toward
zero. -/
def pyInt (q : ℚ) : ℤ := if q < 0 then ⌈q⌉ else ⌊q⌋

/-- `reduction = int((1 - evenness) * (steps - onsets))`: the number of
rest slots set aside before the pairing step and reattached at the end. -/
def reduction (onsets steps : ℤ) (evenness : ℚ) : ℤ :=
  pyInt ((1 - evenness) * ((steps : ℚ) - (onsets : ℚ)))

/-- Embedding of `deque.rotate(rotation)` followed by conversion back to a
list: cyclic right rotation by `r` positions (negative `r` rotates left);
rotating an empty deque is a no-op. -/
def pyRotate (l : List ℕ) (r : ℤ) : List ℕ :=
  if l.length = 0 then l
  else
    l.drop (l.length - (r % (l.length : ℤ)).toNat) ++
      l.take (l.length - (r % (l.length : ℤ)).toNat)

/-- The `sequence` computed by `bjorklund` just before rotation: the
working lists `ones` and `zeroes` are built (in Python `n * [x]` yields
`[]` for negative `n`, hence `Int.toNat`), the longer one becomes
`larger` (ties make `zeroes` the larger), the pairing loop runs, and the
`reduction` zeros removed to facilitate variable evenness are added
back. -/
def coreSeq (onsets steps : ℤ) (evenness : ℚ) : List ℕ :=
  let red := reduction onsets steps evenness
  let ones := List.replicate onsets.toNat (BUnit.leaf 1)
  let zeroes := List.replicate (steps - onsets - red).toNat (BUnit.leaf 0)
  (if ones.length > zeroes.length then pairLoop ones zeroes
   else pairLoop zeroes ones) ++ List.replicate red.toNat 0

/-- Embedding of the body of `bjorklund` after the assertions: the
computation on `onsets steps rotation : int` and `evenness : float` that
have already passed validation. -/
def bjorklund (onsets steps rotation : ℤ) (evenness : ℚ) : List ℕ :=
  pyRotate (coreSeq onsets steps evenness) rotation

/-- A dynamically typed Python value: an `int` or a `float`. -/
inductive PyVal where
  | intV : ℤ → PyVal
  | floatV : ℚ → PyVal

/-- Embedding of `bjorklund` including its `assert` statements: the
arguments are dynamically typed, and any failing assertion
(`isinstance(steps, int)`, `steps > 0`, `isinstance(onsets, int)`,
`onsets <= steps`, `isinstance(rotation, int)`,
`isinstance(evenness, float)`, `evenness >= 0`, `evenness <= 1`)
yields `none` before any computation; otherwise the body runs. -/
def bjorklundChecked : PyVal → PyVal → PyVal → PyVal → Option (List ℕ)
  | PyVal.intV o, PyVal.intV s, PyVal.intV r, PyVal.floatV e =>
    if 0 < s ∧ o ≤ s ∧ 0 ≤ e ∧ e ≤ 1 then some (bjorklund o s r e) else none
  | _, _, _, _ => none

/-! ### Lemmas about the embedded operations -/

theorem flatten_append (l1 l2 : List BUnit) :
    flatten (l1 ++ l2) = flatten l1 ++ flatten l2 := by
  induction l1 using flatten.induct generalizing l2 with
  | case1 => simp [flatten]
  | case2 b rest ih => simp [flatten, ih]
  | case3 g rest ih =>
    show flatten (BUnit.group g :: (rest ++ l2)) = _
    rw [flatten, ← List.append_assoc, ih, flatten]

theorem flatten_nil : flatten [] = [] := by simp [flatten]

theorem flatten_leaf_cons (b : ℕ) (rest : List BUnit) :
    flatten (BUnit.leaf b :: rest) = b :: flatten rest := by
  rw [flatten]

theorem flatten_group_cons (g rest : List BUnit) :
    flatten (BUnit.group g :: rest) = flatten g ++ flatten rest := by
  rw [flatten, flatten_append]

theorem flatten_cons (u : BUnit) (rest : List BUnit) :
    flatten (u :: rest) = flatten [u] ++ flatten rest := by
  have h := flatten_append [u] rest
  simpa using h

theorem flatten_replicate (n : ℕ) (b : ℕ) :
    flatten (List.replicate n (BUnit.leaf b)) = List.replicate n b := by
  induction n with
  | zero => simp [flatten]
  | succ n ih => simp [List.replicate_succ, flatten_leaf_cons, ih]

theorem perm_block_swap (A B L S : List ℕ) :
    ((A ++ B) ++ (L ++ S)).Perm ((A ++ L) ++ (B ++ S)) := by
  have h1 : (A ++ B) ++ (L ++ S) = A ++ ((B ++ L) ++ S) := by
    simp [List.append_assoc]
  have h2 : A ++ ((L ++ B) ++ S) = (A ++ L) ++ (B ++ S) := by
    simp [List.append_assoc]
  rw [h1, ← h2]
  exact (List.perm_append_comm.append_right S).append_left A

theorem paired_unpaired_perm (larger smaller : List BUnit)
    (h : smaller.length ≤ larger.length) :
    (flatten ((larger.zip smaller).map fun p => BUnit.group [p.1, p.2]) ++
      flatten (larger.drop smaller.length)).Perm
      (flatten larger ++ flatten smaller) := by
  induction smaller generalizing larger with
  | nil => simp [flatten]
  | cons v s ih =>
    cases larger with
    | nil => simp at h
    | cons u l =>
      simp only [List.zip_cons_cons, List.map_cons, List.length_cons,
        List.drop_succ_cons]
      rw [flatten_group_cons, flatten_cons u l, flatten_cons v s,
        flatten_cons u [v], List.append_assoc (flatten [u] ++ flatten [v])]
      have hs : s.length ≤ l.length := by simpa using h
      exact ((ih l hs).append_left (flatten [u] ++ flatten [v])).trans
        (perm_block_swap _ _ _ _)


theorem pairLoop_eq_done (larger smaller : List BUnit)
    (hu : larger.drop smaller.length = []) :
    pairLoop larger smaller =
      flatten ((larger.zip smaller).map fun p => BUnit.group [p.1, p.2]) := by
  rw [pairLoop.eq_def]
  simp only []
  rw [if_pos hu]

theorem pairLoop_eq_unpaired (larger smaller : List BUnit)
    (hu : ¬ larger.drop smaller.length = [])
    (hp : (larger.zip smaller).map (fun p => BUnit.group [p.1, p.2]) = []) :
    pairLoop larger smaller = flatten (larger.drop smaller.length) := by
  rw [pairLoop.eq_def]
  simp only []
  rw [if_neg hu, if_pos hp]

theorem pairLoop_eq_rec1 (larger smaller : List BUnit)
    (hu : ¬ larger.drop smaller.length = [])
    (hp : ¬ (larger.zip smaller).map (fun p => BUnit.group [p.1, p.2]) = [])
    (hc : (larger.drop smaller.length).length >
      ((larger.zip smaller).map (fun p => BUnit.group [p.1, p.2])).length) :
    pairLoop larger smaller =
      pairLoop (larger.drop smaller.length)
        ((larger.zip smaller).map (fun p => BUnit.group [p.1, p.2])) := by
  rw [pairLoop.eq_def]
  simp only []
  rw [if_neg hu, if_neg hp, if_pos hc]

theorem pairLoop_eq_rec2 (larger smaller : List BUnit)
    (hu : ¬ larger.drop smaller.length = [])
    (hp : ¬ (larger.zip smaller).map (fun p => BUnit.group [p.1, p.2]) = [])
    (hc : ¬ (larger.drop smaller.length).length >
      ((larger.zip smaller).map (fun p => BUnit.group [p.1, p.2])).length) :
    pairLoop larger smaller =
      pairLoop ((larger.zip smaller).map (fun p => BUnit.group [p.1, p.2]))
        (larger.drop smaller.length) := by
  rw [pairLoop.eq_def]
  simp only []
  rw [if_neg hu, if_neg hp, if_neg hc]

theorem pairLoop_perm_aux :
    ∀ n (larger smaller : List BUnit),
      larger.length + smaller.length = n → smaller.length ≤ larger.length →
      (pairLoop larger smaller).Perm (flatten larger ++ flatten smaller) := by
  intro n
  induction n using Nat.strong_induction_on with
  | _ n ih =>
    intro larger smaller hn h
    have hperm := paired_unpaired_perm larger smaller h
    by_cases hu : larger.drop smaller.length = []
    · rw [pairLoop_eq_done larger smaller hu]
      rw [hu] at hperm
      simpa [flatten_nil] using hperm
    · by_cases hp : (larger.zip smaller).map (fun p => BUnit.group [p.1, p.2]) = []
      · rw [pairLoop_eq_unpaired larger smaller hu hp]
        rw [hp] at hperm
        simpa [flatten_nil] using hperm
      · have hS : 0 < smaller.length := by
          have h2 := List.length_pos.mpr hp
          simp at h2
          omega
        have hL : smaller.length < larger.length := by
          have := List.length_pos.mpr hu
          simp at this
          omega
        have hdrop : (larger.drop smaller.length).length =
            larger.length - smaller.length := by simp
        have hpair : ((larger.zip smaller).map
            (fun p => BUnit.group [p.1, p.2])).length = smaller.length := by
          simp
          omega
        by_cases hc : (larger.drop smaller.length).length >
            ((larger.zip smaller).map (fun p => BUnit.group [p.1, p.2])).length
        · rw [pairLoop_eq_rec1 larger smaller hu hp hc]
          have hrec := ih larger.length (by omega) (larger.drop smaller.length)
            ((larger.zip smaller).map (fun p => BUnit.group [p.1, p.2]))
            (by omega) (by omega)
          exact (hrec.trans List.perm_append_comm).trans hperm
        · rw [pairLoop_eq_rec2 larger smaller hu hp hc]
          have hrec := ih larger.length (by omega) ((larger.zip smaller).map
            (fun p => BUnit.group [p.1, p.2])) (larger.drop smaller.length)
            (by omega) (by omega)
          exact hrec.trans hperm

theorem pairLoop_perm (larger smaller : List BUnit)
    (h : smaller.length ≤ larger.length) :
    (pairLoop larger smaller).Perm (flatten larger ++ flatten smaller) :=
  pairLoop_perm_aux (larger.length + smaller.length) larger smaller rfl h


theorem pairLoop_nil_smaller (l : List BUnit) : pairLoop l [] = flatten l := by
  by_cases hl : l = []
  · subst hl
    rw [pairLoop_eq_done [] []]
    · simp [flatten_nil]
    · simp
  · rw [pairLoop_eq_unpaired l [] (by simpa using hl) (by simp)]
    simp

theorem reduction_bounds (o s : ℤ) (e : ℚ) (ho : o ≤ s) (he0 : 0 ≤ e)
    (he1 : e ≤ 1) : 0 ≤ reduction o s e ∧ reduction o s e ≤ s - o := by
  have hso : (0 : ℚ) ≤ (s : ℚ) - (o : ℚ) := by
    have hq : (o : ℚ) ≤ (s : ℚ) := by exact_mod_cast ho
    linarith
  have he : (0 : ℚ) ≤ 1 - e := by linarith
  have hprod0 : (0 : ℚ) ≤ (1 - e) * ((s : ℚ) - (o : ℚ)) := mul_nonneg he hso
  have hprod1 : (1 - e) * ((s : ℚ) - (o : ℚ)) ≤ (s : ℚ) - (o : ℚ) := by
    nlinarith
  rw [reduction, pyInt, if_neg (by linarith)]
  constructor
  · exact Int.le_floor.mpr (by simpa using hprod0)
  · have hcast : ((s - o : ℤ) : ℚ) = (s : ℚ) - (o : ℚ) := by push_cast; ring
    have hfl : ⌊(s : ℚ) - (o : ℚ)⌋ = s - o := by rw [← hcast, Int.floor_intCast]
    have hf := Int.floor_le_floor hprod1
    rw [hfl] at hf
    exact hf

theorem replicate_merge (a b c : ℕ) (h : a + b = c) (x : ℕ) :
    List.replicate a x ++ List.replicate b x = List.replicate c x := by
  subst h
  rw [← List.replicate_add]

theorem coreSeq_perm (o s : ℤ) (e : ℚ) (ho : o ≤ s) (he0 : 0 ≤ e)
    (he1 : e ≤ 1) :
    (coreSeq o s e).Perm
      (List.replicate o.toNat 1 ++ List.replicate (s - o).toNat 0) := by
  obtain ⟨hr0, hr1⟩ := reduction_bounds o s e ho he0 he1
  rw [coreSeq]
  have hones : (List.replicate o.toNat (BUnit.leaf 1)).length = o.toNat := by
    simp
  have hzeroes : (List.replicate (s - o - reduction o s e).toNat
      (BUnit.leaf 0)).length = (s - o - reduction o s e).toNat := by simp
  have hflat1 : flatten (List.replicate o.toNat (BUnit.leaf 1)) =
      List.replicate o.toNat 1 := flatten_replicate _ _
  have hflat0 : flatten (List.replicate (s - o - reduction o s e).toNat
      (BUnit.leaf 0)) = List.replicate (s - o - reduction o s e).toNat 0 :=
    flatten_replicate _ _
  have hmerge : List.replicate (s - o - reduction o s e).toNat 0 ++
      List.replicate (reduction o s e).toNat 0 =
      List.replicate (s - o).toNat 0 :=
    replicate_merge _ _ _ (by omega) 0
  by_cases hcmp : (List.replicate o.toNat (BUnit.leaf 1)).length >
      (List.replicate (s - o - reduction o s e).toNat (BUnit.leaf 0)).length
  · rw [if_pos hcmp]
    have hp := pairLoop_perm _ _ (Nat.le_of_lt hcmp)
    rw [hflat1, hflat0] at hp
    have := hp.append_right (List.replicate (reduction o s e).toNat 0)
    rw [List.append_assoc, hmerge] at this
    exact this
  · rw [if_neg hcmp]
    have hp := pairLoop_perm _ _ (Nat.le_of_not_lt hcmp)
    rw [hflat1, hflat0] at hp
    have hp2 := hp.trans List.perm_append_comm
    have := hp2.append_right (List.replicate (reduction o s e).toNat 0)
    rw [List.append_assoc, hmerge] at this
    exact this

theorem pyRotate_perm (l : List ℕ) (r : ℤ) : (pyRotate l r).Perm l := by
  rw [pyRotate]
  split_ifs with h
  · exact List.Perm.refl l
  · have hc := @List.perm_append_comm ℕ
      (l.drop (l.length - (r % (l.length : ℤ)).toNat))
      (l.take (l.length - (r % (l.length : ℤ)).toNat))
    rw [List.take_append_drop] at hc
    exact hc

theorem pyRotate_length (l : List ℕ) (r : ℤ) :
    (pyRotate l r).length = l.length := (pyRotate_perm l r).length_eq

theorem bjorklund_perm (o s r : ℤ) (e : ℚ) (ho : o ≤ s) (he0 : 0 ≤ e)
    (he1 : e ≤ 1) :
    (bjorklund o s r e).Perm
      (List.replicate o.toNat 1 ++ List.replicate (s - o).toNat 0) := by
  rw [bjorklund]
  exact (pyRotate_perm _ _).trans (coreSeq_perm o s e ho he0 he1)

theorem eq_replicate_of_perm (l : List ℕ) (n : ℕ) (a : ℕ)
    (h : l.Perm (List.replicate n a)) : l = List.replicate n a := by
  apply List.eq_replicate_iff.mpr
  constructor
  · rw [h.length_eq]; simp
  · intro b hb
    exact List.eq_of_mem_replicate (h.subset hb)


/-! ### Rotation -/

theorem pyRotate_zero (l : List ℕ) : pyRotate l 0 = l := by
  rw [pyRotate]
  split_ifs with h
  · rfl
  · simp

theorem pyRotate_congr (l : List ℕ) (r1 r2 : ℤ)
    (h : r1 % (l.length : ℤ) = r2 % (l.length : ℤ)) :
    pyRotate l r1 = pyRotate l r2 := by
  rw [pyRotate, pyRotate, h]

/-- The description of right rotation given by the spec, in its own words:
right rotation by `k` moves the element at index `i` to index
`(i + k) % length`, so the element at output index `j` comes from input
index `(j + (length - k % length)) % length`. -/
def specRotRight (l : List ℕ) (k : ℕ) : List ℕ :=
  List.ofFn fun j : Fin l.length =>
    l.get ⟨((j : ℕ) + (l.length - k % l.length)) % l.length,
      Nat.mod_lt _ j.pos⟩

theorem pyRotate_eq_specRotRight (l : List ℕ) (r : ℤ) (hl : 0 < l.length) :
    pyRotate l r = specRotRight l ((r % (l.length : ℤ)).toNat) := by
  have hn : (0 : ℤ) < (l.length : ℤ) := by exact_mod_cast hl
  have hk : (r % (l.length : ℤ)).toNat < l.length := by
    have h1 := Int.emod_lt_of_pos r hn
    have h2 := Int.emod_nonneg r hn.ne'
    omega
  rw [pyRotate, if_neg (by omega), specRotRight]
  apply List.ext_getElem
  · simp
    try omega
  · intro j h1 h2
    simp only [List.length_ofFn] at h2
    rw [List.getElem_ofFn, List.get_eq_getElem]
    simp only [Nat.mod_eq_of_lt hk]
    by_cases hj : j < l.length - (l.length - (r % (l.length : ℤ)).toNat)
    · rw [List.getElem_append_left (by simpa using hj), List.getElem_drop]
      congr 1
      have hjk : j + (l.length - (r % (l.length : ℤ)).toNat) < l.length := by
        omega
      rw [Nat.mod_eq_of_lt hjk]
      omega
    · rw [List.getElem_append_right (by simpa using hj), List.getElem_take]
      congr 1
      simp only [List.length_drop]
      have h3 : j + (l.length - (r % (l.length : ℤ)).toNat) =
          (j - (l.length - (l.length - (r % (l.length : ℤ)).toNat)))
            + 1 * l.length := by omega
      rw [h3, Nat.add_mul_mod_self_right]
      symm
      apply Nat.mod_eq_of_lt
      omega


/-! ### Claims -/

/-- Claim C1: for every valid input (steps > 0, 0 <= onsets <= steps, any
integer rotation, evenness in [0, 1]), the returned list has length
exactly `steps` and contains exactly `onsets` ones and `steps - onsets`
zeros. -/
theorem claim_C1 (onsets steps rotation : ℤ) (evenness : ℚ)
    (hs : 0 < steps) (ho0 : 0 ≤ onsets) (hos : onsets ≤ steps)
    (he0 : 0 ≤ evenness) (he1 : evenness ≤ 1) :
    (bjorklund onsets steps rotation evenness).length = steps.toNat ∧
    (bjorklund onsets steps rotation evenness).count 1 = onsets.toNat ∧
    (bjorklund onsets steps rotation evenness).count 0 =
      (steps - onsets).toNat := by
  have hperm := bjorklund_perm onsets steps rotation evenness hos he0 he1
  refine ⟨?_, ?_, ?_⟩
  · rw [hperm.length_eq]
    simp
    omega
  · rw [hperm.count_eq 1]
    simp [List.count_append, List.count_replicate]
  · rw [hperm.count_eq 0]
    simp [List.count_append, List.count_replicate]

/-- Witness for C1 at onsets = 3, steps = 8, rotation = 0,
evenness = 1. -/
theorem claim_C1_witness :
    (0 : ℤ) < 8 ∧ (0 : ℤ) ≤ 3 ∧ (3 : ℤ) ≤ 8 ∧ (0 : ℚ) ≤ 1 ∧ (1 : ℚ) ≤ 1 ∧
    ((bjorklund 3 8 0 1).length = (8 : ℤ).toNat ∧
      (bjorklund 3 8 0 1).count 1 = (3 : ℤ).toNat ∧
      (bjorklund 3 8 0 1).count 0 = ((8 : ℤ) - 3).toNat) :=
  ⟨by norm_num, by norm_num, by norm_num, by norm_num, by norm_num,
    claim_C1 3 8 0 1 (by norm_num) (by norm_num) (by norm_num)
      (by norm_num) (by norm_num)⟩

/-- Counterexample to Claim C2 as stated: at maximal evenness and zero
rotation the code does NOT return the classic pattern `[1,0,0,1,0,0,1,0]`
for (3, 8) — the pairing step puts the element of the larger list first,
so the result starts with a rest. -/
theorem claim_C2_counterexample :
    bjorklund 3 8 0 1 ≠ [1, 0, 0, 1, 0, 0, 1, 0] := by
  have h : bjorklund 3 8 0 1 = [0, 1, 0, 0, 1, 0, 1, 0] := by
    simp [bjorklund, coreSeq, reduction, pyInt, pyRotate, pairLoop, flatten]
  rw [h]
  decide

/-- Claim C2 (amended): at maximal evenness with zero rotation the code
returns `[0,1,0,0,1,0,1,0]` for (3, 8) and `[1,0,1,1,0,1,0,1]` for
(5, 8); these are cyclic rotations of the classic Euclidean reference
patterns, which the code reproduces at rotations 2 and 3 respectively. -/
theorem claim_C2_amended :
    bjorklund 3 8 0 1 = [0, 1, 0, 0, 1, 0, 1, 0] ∧
    bjorklund 5 8 0 1 = [1, 0, 1, 1, 0, 1, 0, 1] ∧
    bjorklund 3 8 2 1 = [1, 0, 0, 1, 0, 0, 1, 0] ∧
    bjorklund 5 8 3 1 = [1, 0, 1, 1, 0, 1, 1, 0] := by
  refine ⟨?_, ?_, ?_, ?_⟩ <;>
    simp [bjorklund, coreSeq, reduction, pyInt, pyRotate, pairLoop, flatten]

/-- Claim C3: at evenness 0 with zero rotation the result is `onsets`
ones followed by `steps - onsets` zeros. -/
theorem claim_C3 (onsets steps : ℤ) (hs : 0 < steps) (ho0 : 0 ≤ onsets)
    (hos : onsets ≤ steps) :
    bjorklund onsets steps 0 0 =
      List.replicate onsets.toNat 1 ++
        List.replicate (steps - onsets).toNat 0 := by
  have hq : (1 - (0 : ℚ)) * ((steps : ℚ) - (onsets : ℚ)) =
      ((steps - onsets : ℤ) : ℚ) := by push_cast; ring
  have hred : reduction onsets steps 0 = steps - onsets := by
    rw [reduction, pyInt, hq]
    rw [if_neg (by
      rw [not_lt]
      exact_mod_cast (by omega : (0 : ℤ) ≤ steps - onsets))]
    exact Int.floor_intCast _
  rw [bjorklund, pyRotate_zero, coreSeq, hred]
  have hz : (steps - onsets - (steps - onsets)).toNat = 0 := by omega
  rw [hz, List.replicate_zero]
  by_cases hpos : 0 < onsets.toNat
  · rw [if_pos (by simpa using hpos)]
    rw [pairLoop_nil_smaller, flatten_replicate]
  · have h0 : onsets.toNat = 0 := by omega
    rw [h0, List.replicate_zero, if_neg (by simp)]
    rw [pairLoop_nil_smaller, flatten_nil]
    simp

/-- Witness for C3 at onsets = 3, steps = 8: the result is
`[1,1,1,0,0,0,0,0]`. -/
theorem claim_C3_witness :
    (0 : ℤ) < 8 ∧ (0 : ℤ) ≤ 3 ∧ (3 : ℤ) ≤ 8 ∧
    bjorklund 3 8 0 0 = [1, 1, 1, 0, 0, 0, 0, 0] :=
  ⟨by norm_num, by norm_num, by norm_num, by
    rw [claim_C3 3 8 (by norm_num) (by norm_num) (by norm_num)]
    rfl⟩

/-- Counterexample to Claim C4 as stated: `onsets < 0` does NOT raise —
the code never checks `onsets >= 0`, only `onsets <= steps`, so
`bjorklund(-1, 8, 0, 1.0)` runs to completion and returns a list of nine
zeros. -/
theorem claim_C4_counterexample :
    bjorklundChecked (PyVal.intV (-1)) (PyVal.intV 8) (PyVal.intV 0)
      (PyVal.floatV 1) = some [0, 0, 0, 0, 0, 0, 0, 0, 0] := by
  simp [bjorklundChecked, bjorklund, coreSeq, reduction, pyInt, pyRotate,
    pairLoop, flatten]

/-- Claim C4 (amended): calling with `steps ≤ 0`, with `onsets > steps`,
or with evenness outside [0, 1] deterministically fails the up-front
assertions and produces no sequence; negative `onsets` is NOT rejected. -/
theorem claim_C4_amended (onsets steps rotation : ℤ) (evenness : ℚ)
    (h : steps ≤ 0 ∨ steps < onsets ∨ evenness < 0 ∨ 1 < evenness) :
    bjorklundChecked (PyVal.intV onsets) (PyVal.intV steps)
      (PyVal.intV rotation) (PyVal.floatV evenness) = none := by
  simp only [bjorklundChecked]
  rw [if_neg]
  rintro ⟨h1, h2, h3, h4⟩
  rcases h with h | h | h | h
  · omega
  · omega
  · linarith
  · linarith

/-- Witness for the amended C4 at steps = 0. -/
theorem claim_C4_witness :
    ((0 : ℤ) ≤ 0 ∨ (0 : ℤ) < 1 ∨ (0 : ℚ) < 0 ∨ 1 < (0 : ℚ)) ∧
    bjorklundChecked (PyVal.intV 1) (PyVal.intV 0) (PyVal.intV 0)
      (PyVal.floatV 0) = none :=
  ⟨Or.inl (le_refl 0), claim_C4_amended 1 0 0 0 (Or.inl (le_refl 0))⟩

/-- Claim C5: the rotated result equals the unrotated result cyclically
right-rotated by `rotation mod steps` (in the sense of the spec: element `i`
moves to index `(i + r) % steps`); rotation by any multiple of `steps`
is the identity, and rotation by `-1` agrees with rotation by
`steps - 1`. -/
theorem claim_C5 (onsets steps rotation m : ℤ) (evenness : ℚ)
    (hs : 0 < steps) (ho0 : 0 ≤ onsets) (hos : onsets ≤ steps)
    (he0 : 0 ≤ evenness) (he1 : evenness ≤ 1) :
    bjorklund onsets steps rotation evenness =
      specRotRight (bjorklund onsets steps 0 evenness)
        ((rotation % steps).toNat) ∧
    bjorklund onsets steps (m * steps) evenness =
      bjorklund onsets steps 0 evenness ∧
    bjorklund onsets steps (-1) evenness =
      bjorklund onsets steps (steps - 1) evenness := by
  have hlen : (coreSeq onsets steps evenness).length = steps.toNat := by
    rw [(coreSeq_perm onsets steps evenness hos he0 he1).length_eq]
    simp
    omega
  have hpos : 0 < (coreSeq onsets steps evenness).length := by
    rw [hlen]
    omega
  have hcast : ((coreSeq onsets steps evenness).length : ℤ) = steps := by
    rw [hlen]
    omega
  refine ⟨?_, ?_, ?_⟩
  · rw [bjorklund, bjorklund, pyRotate_zero,
      pyRotate_eq_specRotRight _ _ hpos, hcast]
  · rw [bjorklund, bjorklund]
    exact pyRotate_congr _ _ _
      (by rw [hcast, Int.mul_emod_left, Int.zero_emod])
  · rw [bjorklund, bjorklund]
    apply pyRotate_congr
    rw [hcast]
    have he : steps - 1 = -1 + steps * 1 := by ring
    rw [he, Int.add_mul_emod_self_left]

/-- Witness for C5 at onsets = 3, steps = 8, rotation = 5, m = 2,
evenness = 1. -/
theorem claim_C5_witness :
    (0 : ℤ) < 8 ∧ (0 : ℤ) ≤ 3 ∧ (3 : ℤ) ≤ 8 ∧ (0 : ℚ) ≤ 1 ∧ (1 : ℚ) ≤ 1 ∧
    (bjorklund 3 8 5 1 =
        specRotRight (bjorklund 3 8 0 1) (((5 : ℤ) % 8).toNat) ∧
      bjorklund 3 8 (2 * 8) 1 = bjorklund 3 8 0 1 ∧
      bjorklund 3 8 (-1) 1 = bjorklund 3 8 ((8 : ℤ) - 1) 1) :=
  ⟨by norm_num, by norm_num, by norm_num, by norm_num, by norm_num,
    claim_C5 3 8 5 2 1 (by norm_num) (by norm_num) (by norm_num)
      (by norm_num) (by norm_num)⟩

/-- Claim C6: zero onsets give all zeros, and `onsets = steps` gives all
ones, for any rotation and evenness. -/
theorem claim_C6 (steps rotation : ℤ) (evenness : ℚ) (hs : 0 < steps)
    (he0 : 0 ≤ evenness) (he1 : evenness ≤ 1) :
    bjorklund 0 steps rotation evenness = List.replicate steps.toNat 0 ∧
    bjorklund steps steps rotation evenness =
      List.replicate steps.toNat 1 := by
  constructor
  · have hperm := bjorklund_perm 0 steps rotation evenness (by omega)
      he0 he1
    rw [show ((0 : ℤ)).toNat = 0 from rfl, List.replicate_zero,
      List.nil_append, sub_zero] at hperm
    exact eq_replicate_of_perm _ _ _ hperm
  · have hperm := bjorklund_perm steps steps rotation evenness le_rfl
      he0 he1
    rw [sub_self, show ((0 : ℤ)).toNat = 0 from rfl, List.replicate_zero,
      List.append_nil] at hperm
    exact eq_replicate_of_perm _ _ _ hperm

/-- Witness for C6 at steps = 8, rotation = 3, evenness = 1/2. -/
theorem claim_C6_witness :
    (0 : ℤ) < 8 ∧ (0 : ℚ) ≤ 1 / 2 ∧ (1 : ℚ) / 2 ≤ 1 ∧
    (bjorklund 0 8 3 (1 / 2) = List.replicate (8 : ℤ).toNat 0 ∧
      bjorklund 8 8 3 (1 / 2) = List.replicate (8 : ℤ).toNat 1) :=
  ⟨by norm_num, by norm_num, by norm_num,
    claim_C6 8 3 (1 / 2) (by norm_num) (by norm_num) (by norm_num)⟩

/-- Claim C7: the pairing loop terminates — whenever the smaller list is
non-empty, one iteration strictly decreases the total number of
top-level units (`paired_elements` and `unpaired_elements` together
carry fewer units than `larger` and `smaller` did), and when the
smaller list is empty the loop exits immediately, returning the
flattened survivor. -/
theorem claim_C7 :
    (∀ larger smaller : List BUnit,
      smaller.length ≤ larger.length → smaller ≠ [] →
      ((larger.zip smaller).map fun p => BUnit.group [p.1, p.2]).length +
          (larger.drop smaller.length).length <
        larger.length + smaller.length) ∧
    (∀ larger : List BUnit, pairLoop larger [] = flatten larger) := by
  constructor
  · intro larger smaller h hne
    have hS : 0 < smaller.length := List.length_pos.mpr hne
    simp
    omega
  · exact pairLoop_nil_smaller

/-- Witness for C7 on concrete working lists. -/
theorem claim_C7_witness :
    (([BUnit.leaf 1] : List BUnit).length ≤
        ([BUnit.leaf 0, BUnit.leaf 0] : List BUnit).length) ∧
    ((([BUnit.leaf 0, BUnit.leaf 0].zip [BUnit.leaf 1]).map
          (fun p => BUnit.group [p.1, p.2])).length +
        (([BUnit.leaf 0, BUnit.leaf 0] : List BUnit).drop
          ([BUnit.leaf 1] : List BUnit).length).length <
      ([BUnit.leaf 0, BUnit.leaf 0] : List BUnit).length +
        ([BUnit.leaf 1] : List BUnit).length) ∧
    pairLoop [BUnit.leaf 0] [] = flatten [BUnit.leaf 0] :=
  ⟨by simp,
    claim_C7.1 [BUnit.leaf 0, BUnit.leaf 0] [BUnit.leaf 1] (by simp)
      (by simp),
    claim_C7.2 [BUnit.leaf 0]⟩

/-- Claim C8: the number of rests withheld from the pairing step equals
`⌊(1 - evenness) * (steps - onsets)⌋` (a floor, not a rounding), and
with rotation 0 the returned sequence ends with that many zeros. -/
theorem claim_C8 (onsets steps : ℤ) (evenness : ℚ)
    (hs : 0 < steps) (ho0 : 0 ≤ onsets) (hos : onsets ≤ steps)
    (he0 : 0 ≤ evenness) (he1 : evenness ≤ 1) :
    reduction onsets steps evenness =
      ⌊(1 - evenness) * ((steps : ℚ) - (onsets : ℚ))⌋ ∧
    (bjorklund onsets steps 0 evenness).drop
        (steps.toNat - (reduction onsets steps evenness).toNat) =
      List.replicate (reduction onsets steps evenness).toNat 0 := by
  have hso : (0 : ℚ) ≤ (steps : ℚ) - (onsets : ℚ) := by
    have hq : (onsets : ℚ) ≤ (steps : ℚ) := by exact_mod_cast hos
    linarith
  have hmul : (0 : ℚ) ≤ (1 - evenness) * ((steps : ℚ) - (onsets : ℚ)) :=
    mul_nonneg (by linarith) hso
  constructor
  · rw [reduction, pyInt, if_neg (not_lt.mpr hmul)]
  · obtain ⟨hr0, hr1⟩ := reduction_bounds onsets steps evenness hos he0 he1
    have hb : bjorklund onsets steps 0 evenness =
        coreSeq onsets steps evenness := by
      rw [bjorklund, pyRotate_zero]
    have hcore : (coreSeq onsets steps evenness).length = steps.toNat := by
      rw [(coreSeq_perm onsets steps evenness hos he0 he1).length_eq]
      simp
      omega
    obtain ⟨X, hXdef⟩ : ∃ X : List ℕ, coreSeq onsets steps evenness =
        X ++ List.replicate (reduction onsets steps evenness).toNat 0 :=
      ⟨_, rfl⟩
    rw [hb, hXdef]
    rw [hXdef, List.length_append, List.length_replicate] at hcore
    apply List.drop_left'
    omega

/-- Witness for C8 at onsets = 5, steps = 13, evenness = 7/10. -/
theorem claim_C8_witness :
    (0 : ℤ) < 13 ∧ (0 : ℤ) ≤ 5 ∧ (5 : ℤ) ≤ 13 ∧ (0 : ℚ) ≤ 7 / 10 ∧
    (7 : ℚ) / 10 ≤ 1 ∧
    (reduction 5 13 (7 / 10) =
        ⌊(1 - (7 : ℚ) / 10) * ((13 : ℚ) - (5 : ℚ))⌋ ∧
      (bjorklund 5 13 0 (7 / 10)).drop
          ((13 : ℤ).toNat - (reduction 5 13 (7 / 10)).toNat) =
        List.replicate (reduction 5 13 (7 / 10)).toNat 0) :=
  ⟨by norm_num, by norm_num, by norm_num, by norm_num, by norm_num,
    claim_C8 5 13 (7 / 10) (by norm_num) (by norm_num) (by norm_num)
      (by norm_num) (by norm_num)⟩

/-- Claim C9: the evenness argument must be a float — the integers 0 and
1 are rejected by the `isinstance(evenness, float)` assertion even
though they lie in [0, 1], while the floats 0.0 and 1.0 succeed. -/
theorem claim_C9 (onsets steps rotation : ℤ) (hs : 0 < steps)
    (hos : onsets ≤ steps) :
    bjorklundChecked (PyVal.intV onsets) (PyVal.intV steps)
        (PyVal.intV rotation) (PyVal.intV 0) = none ∧
    bjorklundChecked (PyVal.intV onsets) (PyVal.intV steps)
        (PyVal.intV rotation) (PyVal.intV 1) = none ∧
    bjorklundChecked (PyVal.intV onsets) (PyVal.intV steps)
        (PyVal.intV rotation) (PyVal.floatV 0) =
      some (bjorklund onsets steps rotation 0) ∧
    bjorklundChecked (PyVal.intV onsets) (PyVal.intV steps)
        (PyVal.intV rotation) (PyVal.floatV 1) =
      some (bjorklund onsets steps rotation 1) := by
  refine ⟨rfl, rfl, ?_, ?_⟩
  · simp only [bjorklundChecked]
    rw [if_pos ⟨hs, hos, by norm_num, by norm_num⟩]
  · simp only [bjorklundChecked]
    rw [if_pos ⟨hs, hos, by norm_num, by norm_num⟩]

/-- Witness for C9 at onsets = 3, steps = 8, rotation = 0. -/
theorem claim_C9_witness :
    (0 : ℤ) < 8 ∧ (3 : ℤ) ≤ 8 ∧
    (bjorklundChecked (PyVal.intV 3) (PyVal.intV 8) (PyVal.intV 0)
        (PyVal.intV 0) = none ∧
      bjorklundChecked (PyVal.intV 3) (PyVal.intV 8) (PyVal.intV 0)
        (PyVal.intV 1) = none ∧
      bjorklundChecked (PyVal.intV 3) (PyVal.intV 8) (PyVal.intV 0)
        (PyVal.floatV 0) = some (bjorklund 3 8 0 0) ∧
      bjorklundChecked (PyVal.intV 3) (PyVal.intV 8) (PyVal.intV 0)
        (PyVal.floatV 1) = some (bjorklund 3 8 0 1)) :=
  ⟨by norm_num, by norm_num,
    claim_C9 3 8 0 (by norm_num) (by norm_num)⟩

/-- Claim C10: negative onsets slip past the assertions (only
`onsets <= steps` is checked) and the call returns a list of
`steps - onsets` zeros — strictly longer than `steps`. -/
theorem claim_C10 (onsets steps rotation : ℤ) (evenness : ℚ)
    (ho : onsets < 0) (hs : 0 < steps) (he0 : 0 ≤ evenness)
    (he1 : evenness ≤ 1) :
    bjorklundChecked (PyVal.intV onsets) (PyVal.intV steps)
        (PyVal.intV rotation) (PyVal.floatV evenness) =
      some (List.replicate (steps - onsets).toNat 0) ∧
    steps.toNat < (steps - onsets).toNat := by
  have hos : onsets ≤ steps := by omega
  have hperm := bjorklund_perm onsets steps rotation evenness hos he0 he1
  have h0 : onsets.toNat = 0 := by omega
  rw [h0, List.replicate_zero, List.nil_append] at hperm
  have heq := eq_replicate_of_perm _ _ _ hperm
  refine ⟨?_, by omega⟩
  simp only [bjorklundChecked]
  rw [if_pos ⟨hs, hos, he0, he1⟩, heq]

/-- Witness for C10 at onsets = -1, steps = 8, rotation = 2,
evenness = 1/2. -/
theorem claim_C10_witness :
    (-1 : ℤ) < 0 ∧ (0 : ℤ) < 8 ∧ (0 : ℚ) ≤ 1 / 2 ∧ (1 : ℚ) / 2 ≤ 1 ∧
    (bjorklundChecked (PyVal.intV (-1)) (PyVal.intV 8) (PyVal.intV 2)
        (PyVal.floatV (1 / 2)) =
      some (List.replicate ((8 : ℤ) - (-1)).toNat 0) ∧
      (8 : ℤ).toNat < ((8 : ℤ) - (-1)).toNat) :=
  ⟨by norm_num, by norm_num, by norm_num, by norm_num,
    claim_C10 (-1) 8 2 (1 / 2) (by norm_num) (by norm_num) (by norm_num)
      (by norm_num)⟩

end Bjorklund
